import Mathlib

/-!
Verification development for the facturai invoice-extraction pipeline
(`src/invoice_parser.py`, `src/validators.py`, `src/models.py`).

The Python code is shallowly embedded: JSON values become an inductive
type, Python dicts become association lists whose keys are unique (a
Python dict can never hold a key twice), mutation becomes explicit state
passing, and raising becomes `Except`.
-/

namespace Facturai

mutual

/-- JSON values as produced by Python's `json.loads`.  Numbers are
restricted to integers (the claims under study never need fractional
literals); strings carry their raw content (escape sequences are not
modelled).  Arrays and objects use the auxiliary types `JsonArr` and
`JsonObj` (plain lists in disguise) so that decidable equality can be
derived. -/
inductive Json where
  | null
  | bool (b : Bool)
  | num (n : Int)
  | str (s : String)
  | arr (items : JsonArr)
  | obj (fields : JsonObj)
deriving DecidableEq, Repr

/-- A list of JSON values (a Python list). -/
inductive JsonArr where
  | nil
  | cons (hd : Json) (tl : JsonArr)
deriving DecidableEq, Repr

/-- An insertion-ordered list of key/value bindings (a Python dict;
keys are unique in any value actually built by the embedded code). -/
inductive JsonObj where
  | nil
  | cons (key : String) (val : Json) (tl : JsonObj)
deriving DecidableEq, Repr

end

/-- Fields of a Python dict, as an ordinary Lean list. -/
abbrev Fields := List (String × Json)

def JsonArr.toList : JsonArr → List Json
  | .nil => []
  | .cons hd tl => hd :: tl.toList

def JsonArr.ofList : List Json → JsonArr
  | [] => .nil
  | hd :: tl => .cons hd (JsonArr.ofList tl)

def JsonObj.toFields : JsonObj → Fields
  | .nil => []
  | .cons k v tl => (k, v) :: tl.toFields

def JsonObj.ofFields : Fields → JsonObj
  | [] => .nil
  | (k, v) :: tl => .cons k v (JsonObj.ofFields tl)

/-- Convenience constructor for a JSON array from a Lean list. -/
def Json.array (items : List Json) : Json := .arr (JsonArr.ofList items)

/-- Convenience constructor for a JSON object from a field list. -/
def Json.object (fs : Fields) : Json := .obj (JsonObj.ofFields fs)

/-- Python's `key in dict`. -/
def hasKey (fs : Fields) (k : String) : Bool :=
  fs.any (fun p => p.1 = k)

/-- Python's `dict[key]` lookup (first binding; a real dict has unique
keys, so the first binding is the only one). -/
def lookupKey (fs : Fields) (k : String) : Option Json :=
  match fs with
  | [] => none
  | p :: rest => if p.1 = k then some p.2 else lookupKey rest k

/-- Python's `dict[key] = value`: replace in place when the key exists,
append at the end otherwise. -/
def dictSet (fs : Fields) (k : String) (v : Json) : Fields :=
  if hasKey fs k then
    fs.map (fun p => if p.1 = k then (k, v) else p)
  else
    fs ++ [(k, v)]

/-- `CSV_HEADERS` of `src/invoice_parser.py` (lines 38-51): the twelve
canonical invoice fields. -/
def CSV_HEADERS : List String :=
  ["CIF/ NIF Proveedor",
   "Nombre Proveedor",
   "CIF/ NIF Cliente",
   "Nombre Cliente",
   "Numero de Factura",
   "Fecha de la factura",
   "Base imponible",
   "IVA",
   "Retencion IRPF",
   "TOTAL",
   "IBAN",
   "Forma de pago"]

/-- One iteration of the field-healing loop (lines 117-120): if the
header is absent, bind it to `None` (appended at the end, as Python
dict assignment does). -/
def healStep (acc : Fields) (h : String) : Fields :=
  if hasKey acc h then acc else acc ++ [(h, Json.null)]

/-- The field-healing loop of `call_gemini_for_extraction`
(`src/invoice_parser.py` lines 115-120) applied to one parsed dict:
for every canonical header absent from the mapping, insert it bound to
`None`. -/
def healFields (fs : Fields) : Fields :=
  CSV_HEADERS.foldl healStep fs

/-- Python substring test `needle in haystack` on strings. -/
def isSubstring (needle haystack : String) : Bool :=
  (List.range (haystack.toList.length + 1)).any
    (fun i => needle.toList.isPrefixOf (haystack.toList.drop i))

/-- The body of the healing loop of `call_gemini_for_extraction`
(lines 115-120) run on one element `invoice_data` of `parsed_data`,
following Python semantics for `header not in invoice_data` and
`invoice_data[header] = None` at each possible element type:
a dict is healed; a string or list element passes through untouched
when every header tests as a member (substring membership for strings,
element equality for lists) and otherwise raises `TypeError` at the
first absent header (item assignment is unsupported); any other type
raises `TypeError` at the first membership test (not iterable). -/
def healItem : Json → Except String Json
  | .obj o => .ok (.obj (JsonObj.ofFields (healFields o.toFields)))
  | .str s =>
      if CSV_HEADERS.all (fun h => isSubstring h s) then .ok (.str s)
      else .error "TypeError: str object does not support item assignment"
  | .arr a =>
      if CSV_HEADERS.all (fun h => (JsonArr.toList a).contains (.str h)) then .ok (.arr a)
      else .error "TypeError: list indices must be integers or slices, not str"
  | _ => .error "TypeError: argument is not iterable"

/-- The healing loop run over the elements of a parsed list, stopping
at the first element whose loop body raises. -/
def healAll : List Json → Except String (List Json)
  | [] => .ok []
  | x :: rest =>
    match healItem x with
    | .error e => .error e
    | .ok y => (healAll rest).map (fun ys => y :: ys)

/-- Lines 112-122 of `call_gemini_for_extraction`: wrap a single dict
into a one-element list, then run the healing loop over `parsed_data`
and return the (mutated) `parsed_data`.  Iterating a non-empty string
yields one-character strings, on which the loop body raises `TypeError`
(no canonical header fits inside a single character); iterating an
empty string runs the body zero times and returns the empty string
itself; iterating a number, boolean or `None` raises `TypeError`. -/
def normalizeParsed : Json → Except String Json
  | .obj o => (healItem (.obj o)).map (fun v => .arr (.cons v .nil))
  | .arr a => (healAll a.toList).map (fun items => .arr (JsonArr.ofList items))
  | .str s =>
      if s = "" then .ok (.str s)
      else .error "TypeError: str object does not support item assignment"
  | _ => .error "TypeError: argument is not iterable"

/-- True when the pattern occurs in `s` starting at index `i`. -/
def matchesAt (pat s : List Char) (i : Nat) : Bool :=
  pat.isPrefixOf (s.drop i)

/-- Index of the leftmost occurrence of `pat` in `s`, if any. -/
def firstMatch (pat s : List Char) : Option Nat :=
  (List.range (s.length + 1)).find? (matchesAt pat s)

/-- Index of the rightmost occurrence of `pat` in `s`, if any. -/
def lastMatch (pat s : List Char) : Option Nat :=
  (List.range (s.length + 1)).foldl (fun acc i => if matchesAt pat s i then some i else acc) none

/-- The opening delimiter of the fenced-block pattern of line 100. -/
def fenceOpen : List Char := "\x60\x60\x60json\n".toList

/-- The closing delimiter of the fenced-block pattern of line 100. -/
def fenceClose : List Char := "\n\x60\x60\x60".toList

/-- Lines 100-108 of `call_gemini_for_extraction`: Python evaluates
`re.search` of the pattern built from `fenceOpen`, a greedy dot-all
group, and `fenceClose`.  The leftmost opening delimiter wins and the
greedy group then extends to the rightmost closing delimiter; when the
pattern does not match, the whole text is the payload.  The leftmost
opening delimiter can only fail when even the rightmost closing
delimiter ends before the group may start, in which case no later
opening position can succeed either. -/
def stripFence (s : List Char) : List Char :=
  match firstMatch fenceOpen s, lastMatch fenceClose s with
  | some i, some j =>
      if i + 8 ≤ j then (s.drop (i + 8)).take (j - (i + 8)) else s
  | _, _ => s

/-- Whitespace skipping for the JSON reader. -/
def skipWs : List Char → List Char
  | [] => []
  | c :: cs => if c = ' ' ∨ c = '\n' ∨ c = '\t' ∨ c = '\r' then skipWs cs else c :: cs

/-- Numeric value of a list of decimal digits. -/
def digitsToNat (ds : List Char) : Nat :=
  ds.foldl (fun n c => n * 10 + (c.toNat - 48)) 0

/-- Read a non-empty run of decimal digits. -/
def readNat (s : List Char) : Option (Nat × List Char) :=
  let ds := s.takeWhile Char.isDigit
  if ds.isEmpty then none else some (digitsToNat ds, s.dropWhile Char.isDigit)

/-- Read the remainder of a JSON string literal after the opening
quote (escape sequences are outside the modelled fragment). -/
def readStringRest (s : List Char) : Option (String × List Char) :=
  let body := s.takeWhile (fun c => c ≠ '\"')
  match s.dropWhile (fun c => c ≠ '\"') with
  | '\"' :: rest => some (String.mk body, rest)
  | _ => none

mutual

/-- Fuel-indexed model of Python's `json.loads` value grammar,
restricted to the fragment exercised here: `null`, booleans, integers,
escape-free strings, arrays and objects. -/
def parseVal (fuel : Nat) (s : List Char) : Option (Json × List Char) :=
  match fuel with
  | 0 => none
  | fuel + 1 =>
    match skipWs s with
    | '\"' :: rest => (readStringRest rest).map (fun p => (.str p.1, p.2))
    | 'n' :: 'u' :: 'l' :: 'l' :: rest => some (.null, rest)
    | 't' :: 'r' :: 'u' :: 'e' :: rest => some (.bool true, rest)
    | 'f' :: 'a' :: 'l' :: 's' :: 'e' :: rest => some (.bool false, rest)
    | '[' :: rest =>
        (match skipWs rest with
         | ']' :: rest2 => some (.arr .nil, rest2)
         | _ => (parseElems fuel rest).map (fun p => (Json.array p.1, p.2)))
    | '\x7b' :: rest =>
        (match skipWs rest with
         | '\x7d' :: rest2 => some (.obj .nil, rest2)
         | _ => (parseMembers fuel rest).map (fun p => (Json.object p.1, p.2)))
    | '-' :: rest => (readNat rest).map (fun p => (.num (-(p.1 : Int)), p.2))
    | c :: rest =>
        if c.isDigit then (readNat (c :: rest)).map (fun p => (.num (p.1 : Int), p.2))
        else none
    | [] => none

/-- Comma-separated array elements, ended by a closing bracket. -/
def parseElems (fuel : Nat) (s : List Char) : Option (List Json × List Char) :=
  match fuel with
  | 0 => none
  | fuel + 1 =>
    match parseVal fuel s with
    | none => none
    | some (v, rest) =>
      match skipWs rest with
      | ',' :: rest2 => (parseElems fuel rest2).map (fun p => (v :: p.1, p.2))
      | ']' :: rest2 => some ([v], rest2)
      | _ => none

/-- Comma-separated object members, ended by a closing brace. -/
def parseMembers (fuel : Nat) (s : List Char) : Option (Fields × List Char) :=
  match fuel with
  | 0 => none
  | fuel + 1 =>
    match skipWs s with
    | '\"' :: rest =>
      match readStringRest rest with
      | none => none
      | some (k, rest2) =>
        match skipWs rest2 with
        | ':' :: rest3 =>
          match parseVal fuel rest3 with
          | none => none
          | some (v, rest4) =>
            match skipWs rest4 with
            | ',' :: rest5 => (parseMembers fuel rest5).map (fun p => ((k, v) :: p.1, p.2))
            | '\x7d' :: rest5 => some ([(k, v)], rest5)
            | _ => none
        | _ => none
    | _ => none

end

/-- Model of `json.loads`: parse one value and require that only
whitespace remains (Python raises on extra data). -/
def json_loads (s : List Char) : Except String Json :=
  match parseVal (s.length + 1) s with
  | some (v, rest) =>
      if (skipWs rest).isEmpty then .ok v else .error "Extra data"
  | none => .error "Expecting value"

/-- `GeminiExtractionError` of `src/invoice_parser.py` lines 13-16: a
single exception class whose only payload is its message string. -/
structure GeminiExtractionError where
  msg : String
deriving DecidableEq, Repr

/-- The error raised at line 96 when the provider returns no
candidates. -/
def noCandidatesError : GeminiExtractionError :=
  ⟨"Gemini API returned no candidates."⟩

/-- The error raised at lines 124-128 when `json.loads` fails; the
message interpolates the decode error and the raw response text. -/
def jsonDecodeError (e : String) (responseText : String) : GeminiExtractionError :=
  ⟨"Failed to parse Gemini API response as JSON: " ++ e ++ ". Response: " ++ responseText⟩

/-- The error raised at lines 130-134 by the catch-all handler; the
message interpolates the underlying exception text. -/
def unexpectedError (e : String) : GeminiExtractionError :=
  ⟨"An unexpected error occurred during Gemini call or processing: " ++ e⟩

/-- A provider-level transport or auth failure surfaces as a Python
exception inside the `try` block and reaches the catch-all handler at
line 130. -/
def providerFailureError (detail : String) : GeminiExtractionError :=
  unexpectedError detail

/-- A missing or malformed response envelope (for example an attribute
error while reading `candidates[0].content.parts[0].text`) equally
reaches the catch-all handler at line 130. -/
def malformedEnvelopeError (detail : String) : GeminiExtractionError :=
  unexpectedError detail

/-- Lines 95-98 of `call_gemini_for_extraction`: a falsy response or a
missing/empty candidate list raises the no-candidates error. -/
def extractResponseText (candidates : Option (List String)) : Except GeminiExtractionError String :=
  match candidates with
  | none => .error noCandidatesError
  | some [] => .error noCandidatesError
  | some (t :: _) => .ok t

/-- The response-processing core of `call_gemini_for_extraction`
(lines 100-134), as a function of the response text: strip an optional
fenced block, parse the payload with `json.loads`, wrap a single dict
into a list and heal every element.  A JSON decode failure raises the
dedicated message of lines 124-128; every other exception (for example
a `TypeError` from the healing loop) is converted by the catch-all
handler of lines 130-134. -/
def call_gemini_for_extraction (response_text : List Char) : Except GeminiExtractionError Json :=
  match json_loads (stripFence response_text) with
  | .error e => .error (jsonDecodeError e (String.mk response_text))
  | .ok parsed =>
    match normalizeParsed parsed with
    | .error e => .error (unexpectedError e)
    | .ok out => .ok out

/-- Equality of `Except` results is decidable componentwise. -/
instance {ε α : Type} [DecidableEq ε] [DecidableEq α] : DecidableEq (Except ε α) := by
  intro x y
  cases x <;> cases y
  case error.error a b =>
    exact if h : a = b then .isTrue (by rw [h]) else .isFalse (fun he => h (by cases he; rfl))
  case ok.ok a b =>
    exact if h : a = b then .isTrue (by rw [h]) else .isFalse (fun he => h (by cases he; rfl))
  case error.ok a b => exact .isFalse (fun he => by cases he)
  case ok.error a b => exact .isFalse (fun he => by cases he)

/-- One extracted invoice record: a Python dict. -/
abbrev Rec := Fields

/-- Keys of a Python dict are pairwise distinct. -/
abbrev keysNodup (r : Rec) : Prop := (r.map Prod.fst).Nodup

/-- Ordered insertion for the fingerprint sort. -/
def insertByKey (p : String × Json) : List (String × Json) → List (String × Json)
  | [] => [p]
  | q :: rest => if p.1 ≤ q.1 then p :: q :: rest else q :: insertByKey p rest

/-- `tuple(sorted(invoice.items()))` of `deduplicate_invoices`
(line 147): the record fields sorted by key.  Python's sort compares
the `(key, value)` tuples componentwise, but the keys of one dict are
pairwise distinct, so only the keys decide the order. -/
def fingerprint (r : Rec) : List (String × Json) :=
  r.foldr insertByKey []

/-- The loop of `deduplicate_invoices` (lines 142-153) with the seen
set and both accumulators made explicit. -/
def dedupGo (seen : List (List (String × Json))) : List Rec → List Rec × List Rec
  | [] => ([], [])
  | invoice :: rest =>
      if fingerprint invoice ∈ seen then
        ((dedupGo seen rest).1, invoice :: (dedupGo seen rest).2)
      else
        (invoice :: (dedupGo (fingerprint invoice :: seen) rest).1,
          (dedupGo (fingerprint invoice :: seen) rest).2)

/-- `deduplicate_invoices` of `src/invoice_parser.py` lines 137-153. -/
def deduplicate_invoices (invoices : List Rec) : List Rec × List Rec :=
  dedupGo [] invoices

/-- Specification-side deduplicator, following the words of the claim:
walking the batch in order, a record is a duplicate exactly when some
earlier record of the list has an identical full field-set (the same
key/value pairs, independent of field order). -/
def dedupBySameFieldSet (prev : List Rec) : List Rec → List Rec × List Rec
  | [] => ([], [])
  | invoice :: rest =>
      if prev.any (fun y => decide (y.Perm invoice)) then
        ((dedupBySameFieldSet (prev ++ [invoice]) rest).1,
          invoice :: (dedupBySameFieldSet (prev ++ [invoice]) rest).2)
      else
        (invoice :: (dedupBySameFieldSet (prev ++ [invoice]) rest).1,
          (dedupBySameFieldSet (prev ++ [invoice]) rest).2)

/-- The result of `company_data.get` for one company role: `name` and
`cif` may each be absent. -/
structure CompanyData where
  name : Option String
  cif : Option String
deriving DecidableEq, Repr

/-- The argument of `CIFConsistencyValidator.validate`: the dict built
by `Invoice.to_cif_validation_format`, where either role may be absent
or falsy (an absent key and an empty dict behave identically: the role
is skipped). -/
structure InvoiceCifData where
  provider : Option CompanyData
  client : Option CompanyData
deriving DecidableEq, Repr

/-- The mutable `company_cif_map` of `CIFConsistencyValidator`, an
insertion-ordered name-to-CIF dict. -/
abbrev CifMap := List (String × String)

/-- Lookup in `company_cif_map` (`company_name in self.company_cif_map`
and `self.company_cif_map[company_name]`). -/
def lookupCif (m : CifMap) (k : String) : Option String :=
  match m with
  | [] => none
  | p :: rest => if p.1 = k then some p.2 else lookupCif rest k

/-- Python truthiness test `not x` for an optional string: `None` and
the empty string are falsy. -/
def falsyStr : Option String → Bool
  | none => true
  | some s => s = ""

/-- The inconsistency message of `CIFConsistencyValidator._validate_company`
(`src/validators.py` lines 47-50). -/
def cifErrorMsg (companyName newCif oldCif : String) : String :=
  "Inconsistency found for company \x27" ++ companyName ++ "\x27: new CIF \x27" ++
    newCif ++ "\x27 does not match existing CIF \x27" ++ oldCif ++ "\x27."

/-- `CIFConsistencyValidator._validate_company` (`src/validators.py`
lines 36-52), with the mutable map and error list made explicit: the
result is the updated map paired with the errors appended for this
role. -/
def _validate_company (m : CifMap) (c : CompanyData) : CifMap × List String :=
  if falsyStr c.name ∨ falsyStr c.cif then (m, [])
  else
    let companyName := c.name.getD ""
    let companyCif := c.cif.getD ""
    match lookupCif m companyName with
    | some oldCif =>
        if oldCif ≠ companyCif then (m, [cifErrorMsg companyName companyCif oldCif])
        else (m, [])
    | none => (m ++ [(companyName, companyCif)], [])

/-- `CIFConsistencyValidator.validate` (`src/validators.py` lines
12-34): validate the provider role, then the client role, threading the
map and accumulating the errors in order. -/
def CIFConsistencyValidator.validate (m : CifMap) (invoice_data : InvoiceCifData) : CifMap × List String :=
  let afterProvider :=
    match invoice_data.provider with
    | some c => _validate_company m c
    | none => (m, [])
  let afterClient :=
    match invoice_data.client with
    | some c => _validate_company afterProvider.1 c
    | none => (afterProvider.1, [])
  (afterClient.1, afterProvider.2 ++ afterClient.2)

/-- The running state of `process_invoices_from_data_folder`: the raw
record list, the validation-error summary and the validator state. -/
structure BatchState (V : Type) where
  all : List Rec
  summary : List String
  vst : V
deriving Repr

/-- The per-record block of `process_invoices_from_data_folder`
(lines 202-227) over the items extracted from one document: attach the
filename to each dict, append it to the raw list, then run the
Pydantic-mapping/CIF-validation block, whose only effects are a new
validator state and summary lines (its exceptions are caught at line
221).  A non-dict item makes the filename assignment raise `TypeError`,
which the catch-all handler at line 234 converts into one summary entry,
abandoning the rest of that document's items. -/
def processItems {V : Type} (check : V → Rec → V × List String) (filename : String) :
    List Json → BatchState V → BatchState V
  | [], st => st
  | .obj o :: rest, st =>
      let r := dictSet o.toFields "filename" (.str filename)
      let afterCheck := check st.vst r
      processItems check filename rest
        { all := st.all ++ [r]
          summary := st.summary ++ afterCheck.2.map (fun e => "File " ++ filename ++ ": " ++ e)
          vst := afterCheck.1 }
  | _ :: _, st =>
      { st with summary := st.summary ++
          ["File " ++ filename ++ ": Unexpected Error during extraction - TypeError"] }

/-- One iteration of the document loop of
`process_invoices_from_data_folder` (lines 195-240).  The document's
extraction outcome is the value `extract_invoice_info` returned or the
`GeminiExtractionError` it raised; a raised error becomes one summary
entry and the loop continues (lines 229-233).  A successful extraction
is iterated over: the healed output is either a list of items or the
empty string (which iterates zero times); any other shape would raise
`TypeError` into the handler of lines 234-240. -/
def processDoc {V : Type} (check : V → Rec → V × List String)
    (st : BatchState V) (doc : String × Except GeminiExtractionError Json) : BatchState V :=
  match doc.2 with
  | .error e =>
      { st with summary := st.summary ++ ["File " ++ doc.1 ++ ": Extraction Error - " ++ e.msg] }
  | .ok (.arr a) => processItems check doc.1 a.toList st
  | .ok (.str s) =>
      if s = "" then st
      else
        { st with summary := st.summary ++
            ["File " ++ doc.1 ++ ": Unexpected Error during extraction - TypeError"] }
  | .ok _ =>
      { st with summary := st.summary ++
          ["File " ++ doc.1 ++ ": Unexpected Error during extraction - TypeError"] }

/-- `process_invoices_from_data_folder` (`src/invoice_parser.py` lines
181-280) over the already-listed PDF documents and their extraction
outcomes, abstracting the per-record Pydantic/CIF block into `check`
(its only observable effects are validator state and summary lines):
run the document loop, then deduplicate the raw list once; the three
output views are the raw list, the unique partition and the duplicate
partition. -/
def process_invoices_from_data_folder {V : Type} (check : V → Rec → V × List String) (v0 : V)
    (docs : List (String × Except GeminiExtractionError Json)) :
    BatchState V × (List Rec × List Rec) :=
  let st := docs.foldl (processDoc check) ⟨[], [], v0⟩
  (st, deduplicate_invoices st.all)

/-- Specification-side contribution of one document to the raw view:
a failed document contributes nothing; a successful one contributes its
dict items, each with the filename attached, up to the first non-dict
item. -/
def docRecords (doc : String × Except GeminiExtractionError Json) : List Rec :=
  match doc.2 with
  | .error _ => []
  | .ok (.arr a) => itemRecords doc.1 a.toList
  | .ok _ => []
where
  /-- Dict items with the filename attached, cut off at the first
  non-dict item. -/
  itemRecords (filename : String) : List Json → List Rec
    | [] => []
    | .obj o :: rest => dictSet o.toFields "filename" (.str filename) :: itemRecords filename rest
    | _ :: _ => []

/-! ### Association-list lemmas -/

theorem hasKey_cons (p : String × Json) (fs : Fields) (k : String) :
    hasKey (p :: fs) k = (decide (p.1 = k) || hasKey fs k) := by
  simp [hasKey]

theorem hasKey_append (fs gs : Fields) (k : String) :
    hasKey (fs ++ gs) k = (hasKey fs k || hasKey gs k) := by
  simp [hasKey, List.any_append]

theorem hasKey_of_lookupKey_some {fs : Fields} {k : String} {v : Json}
    (h : lookupKey fs k = some v) : hasKey fs k = true := by
  induction fs with
  | nil => simp [lookupKey] at h
  | cons p rest ih =>
    rw [hasKey_cons]
    by_cases hp : p.1 = k
    · simp [hp]
    · rw [lookupKey, if_neg hp] at h
      simp [hp, ih h]

theorem lookupKey_eq_none_of_hasKey_false {fs : Fields} {k : String}
    (h : hasKey fs k = false) : lookupKey fs k = none := by
  induction fs with
  | nil => rfl
  | cons p rest ih =>
    rw [hasKey_cons] at h
    rw [lookupKey]
    rcases Bool.or_eq_false_iff.mp h with ⟨h1, h2⟩
    rw [if_neg (by simpa using h1)]
    exact ih h2

theorem lookupKey_append_left {fs : Fields} {k : String} (gs : Fields)
    (h : hasKey fs k = true) : lookupKey (fs ++ gs) k = lookupKey fs k := by
  induction fs with
  | nil => simp [hasKey] at h
  | cons p rest ih =>
    rw [hasKey_cons] at h
    by_cases hp : p.1 = k
    · simp [lookupKey, hp]
    · simp only [List.cons_append, lookupKey, if_neg hp]
      exact ih (by simpa [hp] using h)

theorem lookupKey_append_right {fs : Fields} {k : String} (gs : Fields)
    (h : hasKey fs k = false) : lookupKey (fs ++ gs) k = lookupKey gs k := by
  induction fs with
  | nil => rfl
  | cons p rest ih =>
    rw [hasKey_cons] at h
    rcases Bool.or_eq_false_iff.mp h with ⟨h1, h2⟩
    simp only [List.cons_append, lookupKey, if_neg (by simpa using h1)]
    exact ih h2

theorem lookupKey_map_null {l : List String} {k : String} (h : k ∈ l) :
    lookupKey (l.map (fun x => (x, Json.null))) k = some Json.null := by
  induction l with
  | nil => cases h
  | cons x rest ih =>
    rcases List.mem_cons.mp h with h1 | h2
    · simp [lookupKey, h1]
    · by_cases hx : x = k
      · simp [lookupKey, hx]
      · simpa [lookupKey, hx] using ih h2

/-! ### Field-healing lemmas -/

theorem CSV_HEADERS_nodup : CSV_HEADERS.Nodup := by decide

theorem heal_foldl_eq (hs : List String) (fs : Fields) (hnd : hs.Nodup) :
    hs.foldl healStep fs =
      fs ++ (hs.filter (fun h => !hasKey fs h)).map (fun h => (h, Json.null)) := by
  induction hs generalizing fs with
  | nil => simp
  | cons h rest ih =>
    have hnotin : h ∉ rest := (List.nodup_cons.mp hnd).1
    have hndrest : rest.Nodup := (List.nodup_cons.mp hnd).2
    rw [List.foldl_cons]
    by_cases hk : hasKey fs h = true
    · rw [healStep, if_pos hk, ih fs hndrest]
      have : (List.filter (fun x => !hasKey fs x) (h :: rest)) =
          List.filter (fun x => !hasKey fs x) rest := by
        rw [List.filter_cons_of_neg]
        simp [hk]
      rw [← this]
    · have hk2 : hasKey fs h = false := by simpa using hk
      rw [healStep, if_neg (by simp [hk2]), ih _ hndrest]
      have hcongr : (rest.filter (fun x => !hasKey (fs ++ [(h, Json.null)]) x)) =
          rest.filter (fun x => !hasKey fs x) := by
        apply List.filter_congr
        intro x hx
        have hne : h ≠ x := fun he => hnotin (he ▸ hx)
        rw [hasKey_append]
        simp [hasKey, hne]
      rw [hcongr]
      have hfilter : (h :: rest).filter (fun x => !hasKey fs x) =
          h :: rest.filter (fun x => !hasKey fs x) := by
        rw [List.filter_cons_of_pos]
        simp [hk2]
      rw [hfilter, List.map_cons, List.append_assoc, List.singleton_append]

theorem healFields_eq (fs : Fields) :
    healFields fs =
      fs ++ (CSV_HEADERS.filter (fun h => !hasKey fs h)).map (fun h => (h, Json.null)) :=
  heal_foldl_eq CSV_HEADERS fs CSV_HEADERS_nodup

theorem hasKey_healFields (fs : Fields) {h : String} (hh : h ∈ CSV_HEADERS) :
    hasKey (healFields fs) h = true := by
  rw [healFields_eq, hasKey_append]
  by_cases hk : hasKey fs h = true
  · simp [hk]
  · have hk2 : hasKey fs h = false := by simpa using hk
    have hmem : h ∈ CSV_HEADERS.filter (fun x => !hasKey fs x) :=
      List.mem_filter.mpr ⟨hh, by simp [hk2]⟩
    have : hasKey ((CSV_HEADERS.filter (fun x => !hasKey fs x)).map
        (fun x => (x, Json.null))) h = true := by
      apply List.any_eq_true.mpr
      exact ⟨(h, Json.null), List.mem_map_of_mem _ hmem, by simp⟩
    simp [this]

theorem lookupKey_healFields_present {fs : Fields} {k : String} {v : Json}
    (h : lookupKey fs k = some v) : lookupKey (healFields fs) k = some v := by
  rw [healFields_eq, lookupKey_append_left _ (hasKey_of_lookupKey_some h)]
  exact h

theorem lookupKey_healFields_absent {fs : Fields} {h : String}
    (hh : h ∈ CSV_HEADERS) (hk : hasKey fs h = false) :
    lookupKey (healFields fs) h = some Json.null := by
  rw [healFields_eq, lookupKey_append_right _ hk]
  exact lookupKey_map_null (List.mem_filter.mpr ⟨hh, by simp [hk]⟩)

/-! ### Roundtrip lemmas for the array/object encodings -/

theorem toFields_ofFields (fs : Fields) : (JsonObj.ofFields fs).toFields = fs := by
  induction fs with
  | nil => rfl
  | cons p rest ih => cases p; simp [JsonObj.ofFields, JsonObj.toFields, ih]

theorem toList_ofList (l : List Json) : (JsonArr.ofList l).toList = l := by
  induction l with
  | nil => rfl
  | cons x rest ih => simp [JsonArr.ofList, JsonArr.toList, ih]

/-! ### Shape of the normalizer output -/

theorem healAll_mem {xs ys : List Json} {y : Json}
    (h : healAll xs = .ok ys) (hy : y ∈ ys) : ∃ x ∈ xs, healItem x = .ok y := by
  induction xs generalizing ys with
  | nil =>
    rw [healAll] at h
    cases h
    cases hy
  | cons x rest ih =>
    rw [healAll] at h
    cases hx : healItem x with
    | error e => rw [hx] at h; cases h
    | ok y0 =>
      rw [hx] at h
      cases hrest : healAll rest with
      | error e => rw [hrest] at h; cases h
      | ok zs =>
        rw [hrest] at h
        cases h
        rcases List.mem_cons.mp hy with h1 | h2
        · exact ⟨x, List.mem_cons_self x rest, h1 ▸ hx⟩
        · rcases ih hrest h2 with ⟨x2, hx2, hh2⟩
          exact ⟨x2, List.mem_cons_of_mem _ hx2, hh2⟩

theorem healItem_obj {x : Json} {o : JsonObj} (h : healItem x = .ok (.obj o)) :
    ∃ o0 : JsonObj, x = .obj o0 ∧ o.toFields = healFields o0.toFields := by
  cases x with
  | obj o0 =>
    refine ⟨o0, rfl, ?_⟩
    simp only [healItem, Except.ok.injEq, Json.obj.injEq] at h
    rw [← h, toFields_ofFields]
  | str s =>
    exfalso
    simp only [healItem] at h
    split at h <;> simp at h
  | arr a =>
    exfalso
    simp only [healItem] at h
    split at h <;> simp at h
  | null => exact absurd h (by simp [healItem])
  | bool b => exact absurd h (by simp [healItem])
  | num n => exact absurd h (by simp [healItem])

/-- The conclusion of the schema-completeness claim for one healed
record. -/
theorem healFields_complete (f0 : Fields) :
    (∀ h ∈ CSV_HEADERS, hasKey (healFields f0) h = true) ∧
      (∀ h ∈ CSV_HEADERS, hasKey f0 h = false →
        lookupKey (healFields f0) h = some Json.null) :=
  ⟨fun _ hh => hasKey_healFields f0 hh,
   fun _ hh hk => lookupKey_healFields_absent hh hk⟩

/-- C1: every mapping in a successful normalizer output contains all 12
canonical field names as keys; the canonical fields that were absent in
the parsed payload are present and bound to an explicit null. -/
theorem c1_schema_completeness :
    CSV_HEADERS.length = 12 ∧
    ∀ (text : List Char) (a : JsonArr),
      call_gemini_for_extraction text = .ok (.arr a) →
      ∀ o : JsonObj, Json.obj o ∈ a.toList →
        (∀ h ∈ CSV_HEADERS, hasKey o.toFields h = true) ∧
        ∃ f0 : Fields, o.toFields = healFields f0 ∧
          ∀ h ∈ CSV_HEADERS, hasKey f0 h = false →
            lookupKey o.toFields h = some Json.null := by
  refine ⟨rfl, ?_⟩
  intro text a hok o ho
  rw [call_gemini_for_extraction] at hok
  split at hok
  · simp at hok
  · rename_i parsed hload
    split at hok
    · simp at hok
    · rename_i out hnorm
      have hout : out = .arr a := by cases hok; rfl
      subst hout
      cases parsed with
      | obj o0 =>
        simp only [normalizeParsed, healItem, Except.map, Except.ok.injEq,
          Json.arr.injEq] at hnorm
        rw [← hnorm] at ho
        simp only [JsonArr.toList, List.mem_singleton, Json.obj.injEq] at ho
        have hto : o.toFields = healFields o0.toFields := by
          rw [ho, toFields_ofFields]
        refine ⟨fun h hh => hto ▸ hasKey_healFields _ hh, o0.toFields, hto, ?_⟩
        intro h hh hk
        rw [hto]
        exact lookupKey_healFields_absent hh hk
      | arr a0 =>
        simp only [normalizeParsed] at hnorm
        cases hall : healAll a0.toList with
        | error e => rw [hall] at hnorm; simp [Except.map] at hnorm
        | ok items =>
          rw [hall] at hnorm
          simp only [Except.map, Except.ok.injEq, Json.arr.injEq] at hnorm
          rw [← hnorm, toList_ofList] at ho
          rcases healAll_mem hall ho with ⟨x, _, hxo⟩
          rcases healItem_obj hxo with ⟨o0, _, hto⟩
          refine ⟨fun h hh => hto ▸ hasKey_healFields _ hh, o0.toFields, hto, ?_⟩
          intro h hh hk
          rw [hto]
          exact lookupKey_healFields_absent hh hk
      | str s =>
        simp only [normalizeParsed] at hnorm
        split at hnorm <;> simp at hnorm
      | null => simp [normalizeParsed] at hnorm
      | bool b => simp [normalizeParsed] at hnorm
      | num n => simp [normalizeParsed] at hnorm

/-- Witness for C1 at a concrete response text. -/
theorem c1_schema_completeness_witness :
    hasKey (JsonObj.ofFields (healFields [("IVA", Json.num 1)])).toFields "TOTAL" = true :=
  (c1_schema_completeness.2 "[\x7b\"IVA\": 1\x7d]".toList
    (JsonArr.cons (Json.obj (JsonObj.ofFields (healFields [("IVA", Json.num 1)]))) .nil)
    (by decide) (JsonObj.ofFields (healFields [("IVA", Json.num 1)])) (by decide)).1
    "TOTAL" (by decide)

/-- C10: the healing step is pure insertion — every key present in the
parsed mapping (canonical or not, whatever its value) keeps exactly its
parsed value, and no key is removed. -/
theorem c10_heal_frame :
    ∀ (fs : Fields) (k : String),
      (∀ v : Json, lookupKey fs k = some v → lookupKey (healFields fs) k = some v) ∧
      (hasKey fs k = true → hasKey (healFields fs) k = true) := by
  intro fs k
  constructor
  · intro v hv
    exact lookupKey_healFields_present hv
  · intro hk
    rw [healFields_eq, hasKey_append, hk, Bool.true_or]

/-- Witness for C10 at a concrete mapping: a canonical key bound to
null and a non-canonical key both keep their parsed values. -/
theorem c10_heal_frame_witness :
    lookupKey (healFields [("IVA", Json.null), ("extra", Json.num 7)]) "extra" =
      some (Json.num 7) ∧
    lookupKey (healFields [("IVA", Json.null), ("extra", Json.num 7)]) "IVA" =
      some Json.null := by
  constructor
  · exact (c10_heal_frame [("IVA", Json.null), ("extra", Json.num 7)] "extra").1
      (Json.num 7) (by decide)
  · exact (c10_heal_frame [("IVA", Json.null), ("extra", Json.num 7)] "IVA").1
      Json.null (by decide)

/-! ### Fence-stripping lemmas -/

theorem foldl_lastStep (p : Nat → Bool) (acc : Option Nat) (n : Nat) :
    (List.range (n + 1)).foldl (fun acc i => if p i then some i else acc) acc =
      if p n then some n
      else (List.range n).foldl (fun acc i => if p i then some i else acc) acc := by
  rw [List.range_succ, List.foldl_append]
  rfl

theorem length_wrap (P : List Char) :
    (fenceOpen ++ P ++ fenceClose).length = P.length + 12 := by
  have h8 : fenceOpen.length = 8 := rfl
  have h4 : fenceClose.length = 4 := rfl
  rw [List.length_append, List.length_append, h8, h4]
  omega

theorem drop_wrap_idx (P : List Char) {n : Nat} (k : Nat) (h : n = P.length + 8 + k) :
    (fenceOpen ++ P ++ fenceClose).drop n = fenceClose.drop k := by
  have h8 : fenceOpen.length = 8 := rfl
  have h2 : n = (fenceOpen ++ P).length + k := by rw [List.length_append, h8]; omega
  rw [h2, List.drop_append]

theorem firstMatch_wrap (P : List Char) :
    firstMatch fenceOpen (fenceOpen ++ P ++ fenceClose) = some 0 := by
  rw [firstMatch, length_wrap, List.range_succ_eq_map]
  rw [List.find?_cons_of_pos]
  rw [matchesAt, List.drop_zero]
  apply List.isPrefixOf_iff_prefix.mpr
  rw [List.append_assoc]
  exact List.prefix_append _ _

theorem lastMatch_wrap (P : List Char) :
    lastMatch fenceClose (fenceOpen ++ P ++ fenceClose) = some (P.length + 8) := by
  have m12 : matchesAt fenceClose (fenceOpen ++ P ++ fenceClose) (P.length + 12) = false := by
    rw [matchesAt, drop_wrap_idx P 4 (by omega)]
    decide
  have m11 : matchesAt fenceClose (fenceOpen ++ P ++ fenceClose) (P.length + 11) = false := by
    rw [matchesAt, drop_wrap_idx P 3 (by omega)]
    decide
  have m10 : matchesAt fenceClose (fenceOpen ++ P ++ fenceClose) (P.length + 10) = false := by
    rw [matchesAt, drop_wrap_idx P 2 (by omega)]
    decide
  have m9 : matchesAt fenceClose (fenceOpen ++ P ++ fenceClose) (P.length + 9) = false := by
    rw [matchesAt, drop_wrap_idx P 1 (by omega)]
    decide
  have m8 : matchesAt fenceClose (fenceOpen ++ P ++ fenceClose) (P.length + 8) = true := by
    rw [matchesAt, drop_wrap_idx P 0 (by omega)]
    decide
  rw [lastMatch, length_wrap]
  rw [foldl_lastStep, m12]
  rw [show P.length + 12 = P.length + 11 + 1 from by omega]
  rw [foldl_lastStep, m11]
  rw [show P.length + 11 = P.length + 10 + 1 from by omega]
  rw [foldl_lastStep, m10]
  rw [show P.length + 10 = P.length + 9 + 1 from by omega]
  rw [foldl_lastStep, m9]
  rw [show P.length + 9 = P.length + 8 + 1 from by omega]
  rw [foldl_lastStep, m8]
  simp

theorem stripFence_wrap (P : List Char) :
    stripFence (fenceOpen ++ P ++ fenceClose) = P := by
  rw [stripFence, firstMatch_wrap, lastMatch_wrap]
  show (if 0 + 8 ≤ P.length + 8
    then ((fenceOpen ++ P ++ fenceClose).drop (0 + 8)).take (P.length + 8 - (0 + 8))
    else fenceOpen ++ P ++ fenceClose) = P
  rw [if_pos (by omega : (0 : Nat) + 8 ≤ P.length + 8)]
  have hdrop : (fenceOpen ++ P ++ fenceClose).drop (0 + 8) = P ++ fenceClose := by
    rw [List.append_assoc]
    rw [show (0 + 8 : Nat) = fenceOpen.length + 0 from rfl]
    rw [List.drop_append]
    rfl
  rw [hdrop, show P.length + 8 - (0 + 8) = P.length from by omega]
  exact List.take_left P fenceClose

/-- C6 (amended): provided the fenced-block pattern does not fire
inside the bare payload, normalizing the payload wrapped in a
json-tagged fenced code block yields exactly the same sequence of
records as normalizing the bare payload. -/
theorem c6_fenced_block_tolerance (P : List Char) (hP : stripFence P = P) (out : Json) :
    call_gemini_for_extraction (fenceOpen ++ P ++ fenceClose) = .ok out ↔
      call_gemini_for_extraction P = .ok out := by
  rw [call_gemini_for_extraction, call_gemini_for_extraction, stripFence_wrap, hP]
  cases hjl : json_loads P with
  | error e => simp
  | ok parsed => exact Iff.rfl

/-- Witness for C6 at a concrete payload with no fence inside. -/
theorem c6_fenced_block_tolerance_witness :
    call_gemini_for_extraction (fenceOpen ++ "[]".toList ++ fenceClose) =
      .ok (.arr .nil) :=
  (c6_fenced_block_tolerance "[]".toList (by decide) (.arr .nil)).mpr (by decide)

/-- The inner payload refuting the unconditional form of C6: it
contains a fenced block of its own, so the bare text normalizes the
inner block while the wrapped text fails to parse. -/
def c6Payload : List Char :=
  "\x7b\"a\": 1\x7d\n\x60\x60\x60json\n\x7b\"b\": 2\x7d\n\x60\x60\x60".toList

/-- Counterexample to C6 as stated: for this payload the bare text
normalizes successfully, while the same payload wrapped in a
json-tagged fenced block makes the normalizer fail, so the two runs do
not yield the same sequence of records. -/
theorem c6_counterexample :
    (call_gemini_for_extraction c6Payload).isOk = true ∧
    (call_gemini_for_extraction (fenceOpen ++ c6Payload ++ fenceClose)).isOk = false := by
  constructor
  · decide
  · decide

/-- C7: a payload that parses to a single mapping yields a one-element
sequence whose element is identical to the result of normalizing that
same mapping already wrapped in a one-element sequence. -/
theorem c7_single_to_list (text : List Char) (o : JsonObj)
    (h : json_loads (stripFence text) = .ok (.obj o)) :
    normalizeParsed (.obj o) = normalizeParsed (.arr (.cons (.obj o) .nil)) ∧
    call_gemini_for_extraction text =
      .ok (.arr (.cons (.obj (JsonObj.ofFields (healFields o.toFields))) .nil)) := by
  constructor
  · simp [normalizeParsed, healAll, healItem, Except.map, JsonArr.toList, JsonArr.ofList]
  · rw [call_gemini_for_extraction, h]
    simp [normalizeParsed, healItem, Except.map]

/-- Witness for C7 at a concrete single-mapping payload. -/
theorem c7_single_to_list_witness :
    call_gemini_for_extraction "\x7b\x7d".toList =
      .ok (.arr (.cons (.obj (JsonObj.ofFields (healFields (JsonObj.toFields .nil)))) .nil)) :=
  (c7_single_to_list "\x7b\x7d".toList .nil (by decide)).2

/-! ### CIF consistency validator -/

/-- C2: per validate() call on one CIFConsistencyValidator instance,
with a non-empty company name and tax id in the provider role: a name
recorded with a different tax id yields exactly one error naming the
company, the new id and the previously recorded id, and the stored map
is unchanged (the first-seen id stays for all later calls); a new name
is recorded without error; a recurrence with the same id yields no
error. -/
theorem c2_cif_consistency :
    ∀ (m : CifMap) (name cif : String), name ≠ "" → cif ≠ "" →
      (∀ old : String, lookupCif m name = some old → old ≠ cif →
        CIFConsistencyValidator.validate m ⟨some ⟨some name, some cif⟩, none⟩ =
          (m, [cifErrorMsg name cif old])) ∧
      (lookupCif m name = none →
        CIFConsistencyValidator.validate m ⟨some ⟨some name, some cif⟩, none⟩ =
          (m ++ [(name, cif)], [])) ∧
      (lookupCif m name = some cif →
        CIFConsistencyValidator.validate m ⟨some ⟨some name, some cif⟩, none⟩ =
          (m, [])) := by
  intro m name cif hname hcif
  have hv : ∀ c : CompanyData,
      CIFConsistencyValidator.validate m ⟨some c, none⟩ = _validate_company m c := by
    intro c
    rw [CIFConsistencyValidator.validate]
    simp
  refine ⟨?_, ?_, ?_⟩
  · intro old hold hne
    rw [hv]
    simp [_validate_company, falsyStr, hname, hcif, hold, hne]
  · intro hnone
    rw [hv]
    simp [_validate_company, falsyStr, hname, hcif, hnone]
  · intro hsame
    rw [hv]
    simp [_validate_company, falsyStr, hname, hcif, hsame]

/-- Witness for C2: the three-call scenario of the specification.  The
first sighting of the provider records it, the repeat with the same id
is silent, and the repeat with a different id emits exactly the one
inconsistency error while keeping the first-seen id. -/
theorem c2_cif_consistency_witness :
    CIFConsistencyValidator.validate [] ⟨some ⟨some "Provider", some "111"⟩, none⟩ =
      ([("Provider", "111")], []) ∧
    CIFConsistencyValidator.validate [("Provider", "111")]
        ⟨some ⟨some "Provider", some "111"⟩, none⟩ = ([("Provider", "111")], []) ∧
    CIFConsistencyValidator.validate [("Provider", "111")]
        ⟨some ⟨some "Provider", some "222"⟩, none⟩ =
      ([("Provider", "111")], [cifErrorMsg "Provider" "222" "111"]) := by
  refine ⟨?_, ?_, ?_⟩
  · exact (c2_cif_consistency [] "Provider" "111" (by decide) (by decide)).2.1 (by decide)
  · exact (c2_cif_consistency [("Provider", "111")] "Provider" "111"
      (by decide) (by decide)).2.2 (by decide)
  · exact (c2_cif_consistency [("Provider", "111")] "Provider" "222"
      (by decide) (by decide)).1 "111" (by decide) (by decide)

/-- C8: a company role with a missing or empty name or a missing or
empty tax id is skipped silently — no error is emitted and the
name-to-tax-id map is unchanged. -/
theorem c8_skip_incomplete :
    ∀ (m : CifMap) (c : CompanyData),
      falsyStr c.name = true ∨ falsyStr c.cif = true →
      _validate_company m c = (m, []) := by
  intro m c h
  rw [_validate_company, if_pos h]

/-- Witness for C8: an empty company name is skipped. -/
theorem c8_skip_incomplete_witness :
    _validate_company [("A", "1")] ⟨some "", some "2"⟩ = ([("A", "1")], []) :=
  c8_skip_incomplete [("A", "1")] ⟨some "", some "2"⟩ (Or.inl (by decide))

/-! ### Error kinds of the extraction client -/

/-- Counterexample to C9 as stated: a provider-level transport failure
and a malformed response envelope with the same underlying detail
produce the very same error value of the single class
`GeminiExtractionError`, so the two failure conditions are not mapped
to distinct, programmatically distinguishable kinds. -/
theorem c9_counterexample :
    providerFailureError "boom" = malformedEnvelopeError "boom" ∧
    noCandidatesError = GeminiExtractionError.mk "Gemini API returned no candidates." :=
  ⟨rfl, rfl⟩

/-- C9 (amended): the extraction client has exactly one error kind,
`GeminiExtractionError`, whose only payload is a message string — two
errors with the same message are equal, provider-level failures and
malformed envelopes share the catch-all conversion, and the
no-candidates condition only differs in its fixed message. -/
theorem c9_single_error_kind :
    (∀ d : String, providerFailureError d = malformedEnvelopeError d) ∧
    (∀ e1 e2 : GeminiExtractionError, e1.msg = e2.msg → e1 = e2) ∧
    extractResponseText none = .error noCandidatesError ∧
    extractResponseText (some []) = .error noCandidatesError ∧
    noCandidatesError.msg = "Gemini API returned no candidates." := by
  refine ⟨fun _ => rfl, ?_, rfl, rfl, rfl⟩
  intro e1 e2 h
  cases e1
  cases e2
  cases h
  rfl

/-- Witness for C9 at concrete errors with equal messages. -/
theorem c9_single_error_kind_witness :
    providerFailureError "x" = malformedEnvelopeError "x" :=
  c9_single_error_kind.2.1 (providerFailureError "x") (malformedEnvelopeError "x") rfl

/-! ### Fingerprint lemmas for the deduplicator -/

theorem insertByKey_perm (p : String × Json) (l : List (String × Json)) :
    (insertByKey p l).Perm (p :: l) := by
  induction l with
  | nil => exact .refl _
  | cons q rest ih =>
    rw [insertByKey]
    by_cases h : p.1 ≤ q.1
    · rw [if_pos h]
    · rw [if_neg h]
      exact (ih.cons q).trans (List.Perm.swap p q rest)

theorem fingerprint_perm (r : Rec) : (fingerprint r).Perm r := by
  induction r with
  | nil => exact .refl _
  | cons p rest ih =>
    rw [fingerprint, List.foldr_cons]
    exact (insertByKey_perm p _).trans (ih.cons p)

theorem insertByKey_sorted (p : String × Json) {l : List (String × Json)}
    (h : l.Pairwise (fun a b => a.1 ≤ b.1)) :
    (insertByKey p l).Pairwise (fun a b => a.1 ≤ b.1) := by
  induction l with
  | nil => simp [insertByKey]
  | cons q rest ih =>
    rw [insertByKey]
    by_cases hpq : p.1 ≤ q.1
    · rw [if_pos hpq]
      refine List.Pairwise.cons ?_ h
      intro b hb
      rcases List.mem_cons.mp hb with rfl | hb2
      · exact hpq
      · exact le_trans hpq ((List.pairwise_cons.mp h).1 b hb2)
    · rw [if_neg hpq]
      refine List.Pairwise.cons ?_ (ih (List.pairwise_cons.mp h).2)
      intro b hb
      rcases List.mem_cons.mp ((insertByKey_perm p rest).mem_iff.mp hb) with rfl | hb2
      · exact le_of_not_le hpq
      · exact (List.pairwise_cons.mp h).1 b hb2

theorem fingerprint_sorted (r : Rec) :
    (fingerprint r).Pairwise (fun a b => a.1 ≤ b.1) := by
  induction r with
  | nil => simp [fingerprint]
  | cons p rest ih =>
    rw [fingerprint, List.foldr_cons]
    exact insertByKey_sorted p ih

theorem keysNodup_fingerprint {r : Rec} (h : keysNodup r) :
    ((fingerprint r).map Prod.fst).Nodup :=
  (((fingerprint_perm r).map Prod.fst).nodup_iff).mpr h

/-- With unique keys, equal fingerprints characterize records carrying
the same set of key/value pairs. -/
theorem fingerprint_eq_iff {r1 r2 : Rec} (h1 : keysNodup r1) (h2 : keysNodup r2) :
    fingerprint r1 = fingerprint r2 ↔ r1.Perm r2 := by
  constructor
  · intro h
    have h2p : (fingerprint r1).Perm r2 := h ▸ fingerprint_perm r2
    exact (fingerprint_perm r1).symm.trans h2p
  · intro hp
    haveI : IsAntisymm (String × Json) (fun a b => a.1 < b.1 ∨ a = b) := ⟨by
      intro a b hab hba
      rcases hab with hlt | heq
      · rcases hba with hlt2 | heq2
        · exact absurd hlt2 (lt_asymm hlt)
        · exact heq2.symm
      · exact heq⟩
    have hsorted : ∀ (r : Rec), keysNodup r →
        (fingerprint r).Pairwise (fun a b => a.1 < b.1 ∨ a = b) := by
      intro r hr
      have hne : (fingerprint r).Pairwise (fun a b => a.1 ≠ b.1) :=
        List.pairwise_map.mp (keysNodup_fingerprint hr)
      exact ((fingerprint_sorted r).and hne).imp
        (fun hab => Or.inl (lt_of_le_of_ne hab.1 hab.2))
    have hperm : (fingerprint r1).Perm (fingerprint r2) :=
      ((fingerprint_perm r1).trans hp).trans (fingerprint_perm r2).symm
    exact List.eq_of_perm_of_sorted hperm (hsorted r1 h1) (hsorted r2 h2)

theorem lookupKey_mem {r : Rec} (h : keysNodup r) {k : String} {v : Json} :
    lookupKey r k = some v ↔ (k, v) ∈ r := by
  induction r with
  | nil => simp [lookupKey]
  | cons p rest ih =>
    have hhd : p.1 ∉ rest.map Prod.fst := (List.nodup_cons.mp h).1
    have hnd : keysNodup rest := (List.nodup_cons.mp h).2
    by_cases hp : p.1 = k
    · rw [lookupKey, if_pos hp]
      constructor
      · intro hv
        have hv2 : v = p.2 := by
          injection hv with h2
          exact h2.symm
        subst hv2
        have hpk : p = (k, p.2) := by
          cases p
          cases hp
          rfl
        rw [← hpk]
        exact List.mem_cons_self _ _
      · intro hmem
        rcases List.mem_cons.mp hmem with heq | hmem2
        · subst heq
          rfl
        · refine absurd ?_ hhd
          rw [hp]
          exact List.mem_map_of_mem Prod.fst hmem2
    · rw [lookupKey, if_neg hp]
      rw [ih hnd]
      constructor
      · exact fun hm => List.mem_cons_of_mem _ hm
      · intro hmem
        rcases List.mem_cons.mp hmem with heq | hmem2
        · exact absurd (by rw [← heq]) hp
        · exact hmem2

theorem hasKey_iff_mem_keys {r : Rec} {k : String} :
    hasKey r k = true ↔ k ∈ r.map Prod.fst := by
  rw [hasKey, List.any_eq_true]
  constructor
  · rintro ⟨p, hp, hpk⟩
    rw [← of_decide_eq_true hpk]
    exact List.mem_map_of_mem Prod.fst hp
  · intro hk
    rcases List.mem_map.mp hk with ⟨p, hp, hpk⟩
    exact ⟨p, hp, decide_eq_true hpk⟩

theorem lookupKey_none_iff_hasKey {r : Rec} {k : String} :
    lookupKey r k = none ↔ hasKey r k = false := by
  induction r with
  | nil => simp [lookupKey, hasKey]
  | cons p rest ih =>
    rw [lookupKey, hasKey_cons]
    by_cases hp : p.1 = k
    · simp [hp]
    · simp [hp, ih]

theorem lookupKey_none_iff {r : Rec} {k : String} :
    lookupKey r k = none ↔ k ∉ r.map Prod.fst := by
  rw [lookupKey_none_iff_hasKey]
  constructor
  · intro h hk
    rw [hasKey_iff_mem_keys.mpr hk] at h
    cases h
  · intro h
    cases hcase : hasKey r k with
    | false => rfl
    | true => exact absurd (hasKey_iff_mem_keys.mp hcase) h

theorem lookupKey_eq_of_perm {r1 r2 : Rec} (h1 : keysNodup r1) (hp : r1.Perm r2)
    (k : String) : lookupKey r1 k = lookupKey r2 k := by
  have h2 : keysNodup r2 := ((hp.map Prod.fst).nodup_iff).mp h1
  cases hv : lookupKey r1 k with
  | some v =>
    exact ((lookupKey_mem h2).mpr (hp.subset ((lookupKey_mem h1).mp hv))).symm
  | none =>
    have hk1 : k ∉ r1.map Prod.fst := lookupKey_none_iff.mp hv
    have hk2 : k ∉ r2.map Prod.fst := fun hk => hk1 ((hp.map Prod.fst).mem_iff.mpr hk)
    exact (lookupKey_none_iff.mpr hk2).symm

/-- The code's seen-set of fingerprints coincides with the
specification-side scan over all earlier records. -/
theorem dedupGo_eq_spec :
    ∀ (l prev : List Rec) (seen : List (List (String × Json))),
      (∀ r ∈ l, keysNodup r) → (∀ r ∈ prev, keysNodup r) →
      (∀ fp, fp ∈ seen ↔ ∃ y ∈ prev, fingerprint y = fp) →
      dedupGo seen l = dedupBySameFieldSet prev l := by
  intro l
  induction l with
  | nil => intro prev seen _ _ _; rfl
  | cons x rest ih =>
    intro prev seen hl hprev hseen
    have hx : keysNodup x := hl x (List.mem_cons_self _ _)
    have hrest : ∀ r ∈ rest, keysNodup r := fun r hr => hl r (List.mem_cons_of_mem _ hr)
    have hprev2 : ∀ r ∈ prev ++ [x], keysNodup r := by
      intro r hr
      rcases List.mem_append.mp hr with h | h
      · exact hprev r h
      · rw [List.mem_singleton.mp h]
        exact hx
    have hcond : fingerprint x ∈ seen ↔ prev.any (fun y => decide (y.Perm x)) = true := by
      rw [hseen, List.any_eq_true]
      constructor
      · rintro ⟨y, hy, hfy⟩
        exact ⟨y, hy, decide_eq_true ((fingerprint_eq_iff (hprev y hy) hx).mp hfy)⟩
      · rintro ⟨y, hy, hdy⟩
        exact ⟨y, hy, (fingerprint_eq_iff (hprev y hy) hx).mpr (of_decide_eq_true hdy)⟩
    rw [dedupGo, dedupBySameFieldSet]
    by_cases hmem : fingerprint x ∈ seen
    · rw [if_pos hmem, if_pos (hcond.mp hmem)]
      have hseen2 : ∀ fp, fp ∈ seen ↔ ∃ y ∈ prev ++ [x], fingerprint y = fp := by
        intro fp
        rw [hseen]
        constructor
        · rintro ⟨y, hy, hfy⟩
          exact ⟨y, List.mem_append_left _ hy, hfy⟩
        · rintro ⟨y, hy, hfy⟩
          rcases List.mem_append.mp hy with h | h
          · exact ⟨y, h, hfy⟩
          · rw [List.mem_singleton.mp h] at hfy
            rcases (hseen (fingerprint x)).mp hmem with ⟨z, hz, hfz⟩
            exact ⟨z, hz, by rw [hfz, hfy]⟩
      rw [ih (prev ++ [x]) seen hrest hprev2 hseen2]
    · rw [if_neg hmem, if_neg (fun hc => hmem (hcond.mpr hc))]
      have hseen2 : ∀ fp, fp ∈ fingerprint x :: seen ↔
          ∃ y ∈ prev ++ [x], fingerprint y = fp := by
        intro fp
        rw [List.mem_cons, hseen]
        constructor
        · rintro (rfl | ⟨y, hy, hfy⟩)
          · exact ⟨x, List.mem_append_right _ (List.mem_singleton_self x), rfl⟩
          · exact ⟨y, List.mem_append_left _ hy, hfy⟩
        · rintro ⟨y, hy, hfy⟩
          rcases List.mem_append.mp hy with h | h
          · exact Or.inr ⟨y, h, hfy⟩
          · rw [List.mem_singleton.mp h] at hfy
            exact Or.inl hfy.symm
      rw [ih (prev ++ [x]) (fingerprint x :: seen) hrest hprev2 hseen2]

/-- C3: a record is classified duplicate exactly when an earlier record
of the batch has an identical full field-set (same value at every
field, independent of field order); in particular two records differing
at any one key — such as source filename — are never duplicates of each
other. -/
theorem c3_dedup_by_full_field_set :
    (∀ invoices : List Rec, (∀ r ∈ invoices, keysNodup r) →
      deduplicate_invoices invoices = dedupBySameFieldSet [] invoices) ∧
    (∀ (r1 r2 : Rec) (k : String), keysNodup r1 → keysNodup r2 →
      lookupKey r1 k ≠ lookupKey r2 k →
      deduplicate_invoices [r1, r2] = ([r1, r2], [])) := by
  constructor
  · intro invoices h
    exact dedupGo_eq_spec invoices [] [] h (by simp) (by simp)
  · intro r1 r2 k h1 h2 hne
    have hnp : fingerprint r2 ∉ [fingerprint r1] := by
      rw [List.mem_singleton]
      intro he
      exact hne (lookupKey_eq_of_perm h1 ((fingerprint_eq_iff h2 h1).mp he).symm k)
    rw [deduplicate_invoices, dedupGo, if_neg (List.not_mem_nil _), dedupGo, if_neg hnp,
      dedupGo]

/-- Witness for C3: the two byte-identical invoices of the
specification scenario, differing only in the attached filename, are
both classified unique. -/
theorem c3_dedup_by_full_field_set_witness :
    deduplicate_invoices
      [[("CIF/ NIF Proveedor", Json.str "B12345678"),
        ("Numero de Factura", Json.str "INV-2025-001"),
        ("TOTAL", Json.num 121), ("filename", Json.str "a.pdf")],
       [("CIF/ NIF Proveedor", Json.str "B12345678"),
        ("Numero de Factura", Json.str "INV-2025-001"),
        ("TOTAL", Json.num 121), ("filename", Json.str "b.pdf")]] =
      ([[("CIF/ NIF Proveedor", Json.str "B12345678"),
         ("Numero de Factura", Json.str "INV-2025-001"),
         ("TOTAL", Json.num 121), ("filename", Json.str "a.pdf")],
        [("CIF/ NIF Proveedor", Json.str "B12345678"),
         ("Numero de Factura", Json.str "INV-2025-001"),
         ("TOTAL", Json.num 121), ("filename", Json.str "b.pdf")]], []) :=
  c3_dedup_by_full_field_set.2 _ _ "filename" (by decide) (by decide) (by decide)

/-! ### Partition properties of the deduplicator -/

theorem dedupGo_perm :
    ∀ (l : List Rec) (seen : List (List (String × Json))),
      ((dedupGo seen l).1 ++ (dedupGo seen l).2).Perm l := by
  intro l
  induction l with
  | nil => intro seen; exact .refl _
  | cons x rest ih =>
    intro seen
    rw [dedupGo]
    by_cases hmem : fingerprint x ∈ seen
    · rw [if_pos hmem]
      exact List.perm_middle.trans ((ih seen).cons x)
    · rw [if_neg hmem]
      exact (ih (fingerprint x :: seen)).cons x

theorem dedupGo_sublists :
    ∀ (l : List Rec) (seen : List (List (String × Json))),
      (dedupGo seen l).1.Sublist l ∧ (dedupGo seen l).2.Sublist l := by
  intro l
  induction l with
  | nil => intro seen; exact ⟨.refl _, .refl _⟩
  | cons x rest ih =>
    intro seen
    rw [dedupGo]
    by_cases hmem : fingerprint x ∈ seen
    · rw [if_pos hmem]
      exact ⟨(ih seen).1.cons x, (ih seen).2.cons₂ x⟩
    · rw [if_neg hmem]
      exact ⟨(ih (fingerprint x :: seen)).1.cons₂ x, (ih (fingerprint x :: seen)).2.cons x⟩

theorem dedupGo_fresh :
    ∀ (l : List Rec) (seen : List (List (String × Json))),
      ((dedupGo seen l).1.map fingerprint).Nodup ∧
      ∀ fp ∈ (dedupGo seen l).1.map fingerprint, fp ∉ seen := by
  intro l
  induction l with
  | nil => intro seen; exact ⟨List.nodup_nil, by rw [dedupGo]; simp⟩
  | cons x rest ih =>
    intro seen
    rw [dedupGo]
    by_cases hmem : fingerprint x ∈ seen
    · rw [if_pos hmem]
      exact ih seen
    · rw [if_neg hmem]
      have hihn := (ih (fingerprint x :: seen)).1
      have hihf := (ih (fingerprint x :: seen)).2
      constructor
      · rw [List.map_cons, List.nodup_cons]
        refine ⟨fun hc => ?_, hihn⟩
        exact (hihf _ hc) (List.mem_cons_self _ _)
      · intro fp hfp
        rw [List.map_cons, List.mem_cons] at hfp
        rcases hfp with rfl | hfp2
        · exact hmem
        · exact fun hc => (hihf fp hfp2) (List.mem_cons_of_mem _ hc)

theorem dedupGo_all_fresh :
    ∀ (l : List Rec) (seen : List (List (String × Json))),
      (l.map fingerprint).Nodup →
      (∀ fp ∈ l.map fingerprint, fp ∉ seen) →
      dedupGo seen l = (l, []) := by
  intro l
  induction l with
  | nil => intro seen _ _; rfl
  | cons x rest ih =>
    intro seen hnd hfresh
    rw [List.map_cons, List.nodup_cons] at hnd
    rw [dedupGo, if_neg (hfresh (fingerprint x) (by simp))]
    rw [ih (fingerprint x :: seen) hnd.2 ?fresh]
    case fresh =>
      intro fp hfp hc
      rcases List.mem_cons.mp hc with heq | hin
      · exact hnd.1 (heq ▸ hfp)
      · exact hfresh fp (List.mem_cons_of_mem _ hfp) hin

/-- Counterexample to C4 as stated: for a literally repeated record the
unique list and the duplicate list share that record, so the two output
lists are not disjoint as sets of records. -/
theorem c4_counterexample :
    [("TOTAL", Json.num 121)] ∈
      (deduplicate_invoices [[("TOTAL", Json.num 121)], [("TOTAL", Json.num 121)]]).1 ∧
    [("TOTAL", Json.num 121)] ∈
      (deduplicate_invoices [[("TOTAL", Json.num 121)], [("TOTAL", Json.num 121)]]).2 := by
  constructor
  · decide
  · decide

/-- C4 (amended): the two output lists partition the input occurrences
— their concatenation is a permutation of the input (same length and
same multiset of fingerprints) — each output preserves first-seen input
order as a subsequence, the unique list carries pairwise-distinct
fingerprints, and the deduplicator is idempotent on its unique output;
the two lists may share a record value exactly when the input repeats
it literally. -/
theorem c4_partition_multiset (invoices : List Rec) :
    ((deduplicate_invoices invoices).1 ++ (deduplicate_invoices invoices).2).Perm invoices ∧
    (deduplicate_invoices invoices).1.Sublist invoices ∧
    (deduplicate_invoices invoices).2.Sublist invoices ∧
    ((deduplicate_invoices invoices).1.map fingerprint).Nodup ∧
    deduplicate_invoices (deduplicate_invoices invoices).1 =
      ((deduplicate_invoices invoices).1, []) := by
  refine ⟨dedupGo_perm invoices [], (dedupGo_sublists invoices []).1,
    (dedupGo_sublists invoices []).2, (dedupGo_fresh invoices []).1, ?_⟩
  exact dedupGo_all_fresh _ [] (dedupGo_fresh invoices []).1 (by simp)

/-! ### Orchestrator lemmas -/

theorem processItems_all {V : Type} (check : V → Rec → V × List String) (fn : String) :
    ∀ (items : List Json) (st : BatchState V),
      (processItems check fn items st).all = st.all ++ docRecords.itemRecords fn items := by
  intro items
  induction items with
  | nil =>
    intro st
    simp only [processItems, docRecords.itemRecords, List.append_nil]
  | cons item rest ih =>
    intro st
    cases item with
    | obj o =>
      simp only [processItems, docRecords.itemRecords]
      rw [ih]
      simp
    | null => simp only [processItems, docRecords.itemRecords, List.append_nil]
    | bool b => simp only [processItems, docRecords.itemRecords, List.append_nil]
    | num n => simp only [processItems, docRecords.itemRecords, List.append_nil]
    | str s => simp only [processItems, docRecords.itemRecords, List.append_nil]
    | arr a => simp only [processItems, docRecords.itemRecords, List.append_nil]

theorem processItems_summary {V : Type} (check : V → Rec → V × List String) (fn : String) :
    ∀ (items : List Json) (st : BatchState V),
      ∃ s, (processItems check fn items st).summary = st.summary ++ s := by
  intro items
  induction items with
  | nil => intro st; exact ⟨[], by simp [processItems]⟩
  | cons item rest ih =>
    intro st
    cases item with
    | obj o =>
      rcases ih _ with ⟨s, hs⟩
      refine ⟨(check st.vst (dictSet o.toFields "filename" (.str fn))).2.map
        (fun e => "File " ++ fn ++ ": " ++ e) ++ s, ?_⟩
      simp only [processItems] at hs ⊢
      rw [hs]
      simp
    | null => exact ⟨_, rfl⟩
    | bool b => exact ⟨_, rfl⟩
    | num n => exact ⟨_, rfl⟩
    | str s => exact ⟨_, rfl⟩
    | arr a => exact ⟨_, rfl⟩

theorem processDoc_all {V : Type} (check : V → Rec → V × List String)
    (st : BatchState V) (doc : String × Except GeminiExtractionError Json) :
    (processDoc check st doc).all = st.all ++ docRecords doc := by
  rcases doc with ⟨name, res⟩
  cases res with
  | error e => simp [processDoc, docRecords]
  | ok v =>
    cases v with
    | arr a => simpa [processDoc, docRecords] using processItems_all check name a.toList st
    | str s =>
      by_cases hs : s = ""
      · simp [processDoc, docRecords, hs]
      · simp [processDoc, docRecords, hs]
    | obj o => simp [processDoc, docRecords]
    | null => simp [processDoc, docRecords]
    | bool b => simp [processDoc, docRecords]
    | num n => simp [processDoc, docRecords]

theorem processDoc_summary {V : Type} (check : V → Rec → V × List String)
    (st : BatchState V) (doc : String × Except GeminiExtractionError Json) :
    ∃ s, (processDoc check st doc).summary = st.summary ++ s := by
  rcases doc with ⟨name, res⟩
  cases res with
  | error e => exact ⟨_, rfl⟩
  | ok v =>
    cases v with
    | arr a => exact processItems_summary check name a.toList st
    | str s =>
      by_cases hs : s = ""
      · exact ⟨[], by simp [processDoc, hs]⟩
      · exact ⟨["File " ++ name ++ ": Unexpected Error during extraction - TypeError"],
          by simp [processDoc, hs]⟩
    | obj o => exact ⟨_, rfl⟩
    | null => exact ⟨_, rfl⟩
    | bool b => exact ⟨_, rfl⟩
    | num n => exact ⟨_, rfl⟩

theorem foldl_processDoc_all {V : Type} (check : V → Rec → V × List String) :
    ∀ (docs : List (String × Except GeminiExtractionError Json)) (st : BatchState V),
      (docs.foldl (processDoc check) st).all = st.all ++ (docs.map docRecords).flatten := by
  intro docs
  induction docs with
  | nil => intro st; simp
  | cons d rest ih =>
    intro st
    rw [List.foldl_cons, ih, processDoc_all]
    simp

theorem foldl_processDoc_summary_mem {V : Type} (check : V → Rec → V × List String) :
    ∀ (docs : List (String × Except GeminiExtractionError Json)) (st : BatchState V)
      (x : String), x ∈ st.summary → x ∈ (docs.foldl (processDoc check) st).summary := by
  intro docs
  induction docs with
  | nil => intro st x hx; exact hx
  | cons d rest ih =>
    intro st x hx
    rw [List.foldl_cons]
    refine ih _ x ?_
    rcases processDoc_summary check st d with ⟨s, hs⟩
    rw [hs]
    exact List.mem_append_left _ hx

theorem failed_doc_in_summary {V : Type} (check : V → Rec → V × List String) :
    ∀ (docs : List (String × Except GeminiExtractionError Json)) (st : BatchState V)
      (name : String) (e : GeminiExtractionError),
      (name, Except.error e) ∈ docs →
      ("File " ++ name ++ ": Extraction Error - " ++ e.msg) ∈
        (docs.foldl (processDoc check) st).summary := by
  intro docs
  induction docs with
  | nil => intro st name e h; cases h
  | cons d rest ih =>
    intro st name e h
    rw [List.foldl_cons]
    rcases List.mem_cons.mp h with heq | hmem
    · refine foldl_processDoc_summary_mem check rest _ _ ?_
      rw [← heq]
      simp [processDoc]
    · exact ih _ name e hmem

/-- C5: a document whose extraction fails contributes one summary entry
and no records to any output view, while the batch continues: the raw
view is exactly the concatenation of the per-document record
contributions (empty for failed documents) and the unique/duplicate
views are the deduplication of that raw view. -/
theorem c5_error_isolation {V : Type} (check : V → Rec → V × List String) (v0 : V)
    (docs : List (String × Except GeminiExtractionError Json)) :
    (process_invoices_from_data_folder check v0 docs).1.all =
      (docs.map docRecords).flatten ∧
    (process_invoices_from_data_folder check v0 docs).2 =
      deduplicate_invoices ((docs.map docRecords).flatten) ∧
    ∀ (name : String) (e : GeminiExtractionError), (name, Except.error e) ∈ docs →
      ("File " ++ name ++ ": Extraction Error - " ++ e.msg) ∈
        (process_invoices_from_data_folder check v0 docs).1.summary := by
  have hall : (docs.foldl (processDoc check) ⟨[], [], v0⟩).all = (docs.map docRecords).flatten := by
    rw [foldl_processDoc_all]
    rfl
  refine ⟨hall, ?_, ?_⟩
  · show deduplicate_invoices (docs.foldl (processDoc check) ⟨[], [], v0⟩).all = _
    rw [hall]
  · intro name e hmem
    exact failed_doc_in_summary check docs _ name e hmem

/-- Witness for C5: a two-document batch in which the first document
fails and the second yields one record — the failure is recorded in the
summary and only the surviving document contributes to the raw view. -/
theorem c5_error_isolation_witness :
    ("File bad.pdf: Extraction Error - boom") ∈
      (process_invoices_from_data_folder (fun (u : Unit) _ => (u, [])) ()
        [("bad.pdf", .error ⟨"boom"⟩),
         ("good.pdf", .ok (.arr (.cons (.obj .nil) .nil)))]).1.summary ∧
    (process_invoices_from_data_folder (fun (u : Unit) _ => (u, [])) ()
        [("bad.pdf", .error ⟨"boom"⟩),
         ("good.pdf", .ok (.arr (.cons (.obj .nil) .nil)))]).1.all =
      [[("filename", Json.str "good.pdf")]] := by
  constructor
  · exact (c5_error_isolation (fun (u : Unit) _ => (u, [])) ()
      [("bad.pdf", .error ⟨"boom"⟩),
       ("good.pdf", .ok (.arr (.cons (.obj .nil) .nil)))]).2.2 "bad.pdf" ⟨"boom"⟩ (by decide)
  · rw [(c5_error_isolation (fun (u : Unit) _ => (u, [])) ()
      [("bad.pdf", .error ⟨"boom"⟩),
       ("good.pdf", .ok (.arr (.cons (.obj .nil) .nil)))]).1]
    decide

end Facturai
